import Mathlib

/-!
# Chrono2: the hand-angle computation, the sweep counter and the battery text

A shallow embedding of `src/Chrono2.c`.

* C `int` values are integers; every arithmetic result is reduced to the
  two's-complement range of a 32-bit `int` by `wrap32`, and `/`, `%` truncate
  toward zero as in C. (A result outside the range of `int` is undefined in C;
  the reduction is what the 32-bit target stores.)
* The module-level variables `partial_second`, `previous_second`,
  `battery_buffer` and the two effects of `handle_tick` (the timer is armed,
  the root layer is marked dirty) are the fields of an explicit state.
* The drawing calls of the framework are not modelled; what is kept of
  `hands_update_proc` is the state it leaves and the three angles it hands to
  `gpath_rotate_to`.
-/

namespace Chrono2

/-! ## C arithmetic on `int` -/

/-- Reduction of an integer to the range of a 32-bit two's-complement `int`. -/
def wrap32 (x : Int) : Int := (x + 2147483648) % 4294967296 - 2147483648

/-- The values a C `int` can hold. -/
def isInt32 (x : Int) : Prop := -2147483648 ≤ x ∧ x ≤ 2147483647

instance (x : Int) : Decidable (isInt32 x) := by
  unfold isInt32; exact inferInstance

/-- C `a + b` on `int`. -/
def cAdd (a b : Int) : Int := wrap32 (a + b)

/-- C `a * b` on `int`. -/
def cMul (a b : Int) : Int := wrap32 (a * b)

/-- C `a / b` on `int`: the quotient is truncated toward zero. -/
def cDiv (a b : Int) : Int := wrap32 (Int.tdiv a b)

/-- C `a % b` on `int`: the remainder has the sign of the dividend. -/
def cMod (a b : Int) : Int := wrap32 (Int.tmod a b)

/-! ## Constants -/

/-- The timer period in milliseconds, `#define TIMER_MSEC 200`. -/
def TIMER_MSEC : Int := 200

/-- Modelled from the spec: `TRIG_MAX_ANGLE` is declared by the framework
header `pebble.h`, which is not among the sources. It is the angle unit's full
turn, 65536 (`0x10000`). -/
def TRIG_MAX_ANGLE : Int := 65536

/-! ## State -/

/-- The fields of `struct tm` that `hands_update_proc` reads. -/
structure Tm where
  tm_sec : Int
  tm_min : Int
  tm_hour : Int
  deriving DecidableEq, Repr

/-- The sweep counter: the module-level `partial_second` and `previous_second`. -/
structure Counter where
  partial_second : Int
  previous_second : Int
  deriving DecidableEq, Repr

/-- The counter as initialised: `partial_second = 0`, `previous_second = -1`. -/
def Counter.init : Counter := { partial_second := 0, previous_second := -1 }

/-- The three angles handed to `gpath_rotate_to`. -/
structure HandAngles where
  second_angle : Int
  minute_angle : Int
  hour_angle : Int
  deriving DecidableEq, Repr

/-! ## `hands_update_proc` -/

/-- The counter update at the top of `hands_update_proc`:
`if (t->tm_sec != previous_second) { partial_second = 0; previous_second = t->tm_sec; }
 else { partial_second++; }`. -/
def advanceTick (tm_sec : Int) (c : Counter) : Counter :=
  if tm_sec ≠ c.previous_second then
    { partial_second := 0, previous_second := tm_sec }
  else
    { c with partial_second := cAdd c.partial_second 1 }

/-- The expression
`TRIG_MAX_ANGLE * ((t->tm_sec * (1000 / TIMER_MSEC)) + partial_second) / (60 * (1000 / TIMER_MSEC))`. -/
def second_angle (tm_sec partial_second : Int) : Int :=
  cDiv
    (cMul TRIG_MAX_ANGLE (cAdd (cMul tm_sec (cDiv 1000 TIMER_MSEC)) partial_second))
    (cMul 60 (cDiv 1000 TIMER_MSEC))

/-- The expression `TRIG_MAX_ANGLE * (t->tm_min * 6 + (t->tm_sec / 10)) / 360`. -/
def minute_angle (tm_min tm_sec : Int) : Int :=
  cDiv (cMul TRIG_MAX_ANGLE (cAdd (cMul tm_min 6) (cDiv tm_sec 10))) 360

/-- The expression
`TRIG_MAX_ANGLE * (((t->tm_hour % 12) * 30) + (t->tm_min / 2)) / 360`. -/
def hour_angle (tm_hour tm_min : Int) : Int :=
  cDiv (cMul TRIG_MAX_ANGLE (cAdd (cMul (cMod tm_hour 12) 30) (cDiv tm_min 2))) 360

/-- The three angles `hands_update_proc` computes from the clock reading and
the updated `partial_second`. -/
def computeAngles (t : Tm) (partial_second : Int) : HandAngles :=
  { second_angle := second_angle t.tm_sec partial_second,
    minute_angle := minute_angle t.tm_min t.tm_sec,
    hour_angle := hour_angle t.tm_hour t.tm_min }

/-- Modelled from the spec: `BatteryChargeState` is declared by the framework
header `pebble.h`, which is not among the sources. Of the reading of the power
service, the charge percentage (an unsigned byte) and the charging flag. -/
structure BatteryChargeState where
  charge_percent : Nat
  is_charging : Bool
  deriving DecidableEq, Repr

/-- The module-level state the three callbacks work on. `timer_handle` is the
delay of the pending timer, if one is registered; `root_dirty` records that the
root layer was marked dirty. -/
structure App where
  counter : Counter
  battery_buffer : List Char
  timer_handle : Option Int
  root_dirty : Bool
  deriving DecidableEq, Repr

/-- The state when the event loop starts: the counter as initialised, the
six-byte `battery_buffer` zeroed, the timer registered by `init`. -/
def App.init : App :=
  { counter := Counter.init,
    battery_buffer := List.replicate 6 (Char.ofNat 0),
    timer_handle := some TIMER_MSEC,
    root_dirty := false }

/-- A store of an `int` value into a `char` slot. -/
def toChar (x : Nat) : Char := Char.ofNat (x % 256)

/-- The redraw of the hands, `hands_update_proc`: the counter is updated from
the second read from the clock, then the three angles are computed. -/
def hands_update_proc (t : Tm) (a : App) : App × HandAngles :=
  let c1 := advanceTick t.tm_sec a.counter
  ({ a with counter := c1 }, computeAngles t c1.partial_second)

/-- The timer callback, `handle_tick`:
`timer_handle = app_timer_register(TIMER_MSEC, handle_tick, NULL);
 layer_mark_dirty(window_get_root_layer(window));`. -/
def handle_tick (a : App) : App :=
  { a with timer_handle := some TIMER_MSEC, root_dirty := true }

/-- The redraw of the battery text, `battery_update_proc`, on a reading `st` of
the power service: six stores into `battery_buffer`. -/
def battery_update_proc (st : BatteryChargeState) (a : App) : App :=
  let b := a.battery_buffer
  let b := b.set 0 (if st.is_charging then '+' else ' ')
  let b := b.set 1 (if st.charge_percent / 100 ≠ 0 then '1' else ' ')
  let charge_percent := (st.charge_percent % 100) % 256
  let b := b.set 2 (toChar (charge_percent / 10 + ('0').toNat))
  let b := b.set 3 (toChar (charge_percent % 10 + ('0').toNat))
  let b := b.set 4 '%'
  let b := b.set 5 (toChar 0)
  { a with battery_buffer := b }

/-- The counter after a run of counter updates, one per clock second of the
list, in order. -/
def runTicks (secs : List Int) (c : Counter) : Counter :=
  secs.foldl (fun acc s => advanceTick s acc) c

/-! ## The angle expressions over the unbounded integers -/

/-- The second-hand expression evaluated without reduction to 32 bits. -/
def second_angle_exact (tm_sec partial_second : Int) : Int :=
  Int.tdiv
    (TRIG_MAX_ANGLE * (tm_sec * Int.tdiv 1000 TIMER_MSEC + partial_second))
    (60 * Int.tdiv 1000 TIMER_MSEC)

/-- The minute-hand expression evaluated without reduction to 32 bits. -/
def minute_angle_exact (tm_min tm_sec : Int) : Int :=
  Int.tdiv (TRIG_MAX_ANGLE * (tm_min * 6 + Int.tdiv tm_sec 10)) 360

/-- The hour-hand expression evaluated without reduction to 32 bits. -/
def hour_angle_exact (tm_hour tm_min : Int) : Int :=
  Int.tdiv (TRIG_MAX_ANGLE * (Int.tmod tm_hour 12 * 30 + Int.tdiv tm_min 2)) 360

/-! ## Arithmetic lemmas -/

theorem wrap32_eq_self {x : Int} (h : isInt32 x) : wrap32 x = x := by
  unfold isInt32 at h
  unfold wrap32
  omega

theorem wrap32_isInt32 (x : Int) : isInt32 (wrap32 x) := by
  unfold isInt32 wrap32
  omega

theorem ticks_per_second : cDiv 1000 TIMER_MSEC = 5 := by decide

theorem second_divisor : cMul 60 (cDiv 1000 TIMER_MSEC) = 300 := by decide

theorem cDiv_of_nonneg {a b : Int} (ha : 0 ≤ a) (ha2 : a ≤ 2147483647) (hb : 0 < b) :
    cDiv a b = a / b := by
  unfold cDiv
  rw [Int.tdiv_eq_ediv ha (le_of_lt hb)]
  apply wrap32_eq_self
  have h1 : 0 ≤ a / b := Int.ediv_nonneg ha (le_of_lt hb)
  have h2 : a / b ≤ a := Int.ediv_le_self b ha
  unfold isInt32
  omega

theorem cMod_of_nonneg {a b : Int} (ha : 0 ≤ a) (hb : 0 < b) (hb2 : b ≤ 2147483647) :
    cMod a b = a % b := by
  unfold cMod
  rw [Int.tmod_eq_emod ha (le_of_lt hb)]
  apply wrap32_eq_self
  have h1 : 0 ≤ a % b := Int.emod_nonneg a (ne_of_gt hb)
  have h2 : a % b < b := Int.emod_lt_of_pos a hb
  unfold isInt32
  omega

/-- The second-hand angle in closed form, as long as the product fits 32 bits. -/
theorem second_angle_closed {s p : Int} (hs : 0 ≤ s) (hs2 : s ≤ 59) (hp : 0 ≤ p)
    (hb : s * 5 + p ≤ 32767) :
    second_angle s p = 65536 * (s * 5 + p) / 300 := by
  unfold second_angle
  rw [second_divisor, ticks_per_second]
  have e1 : cMul s 5 = s * 5 := wrap32_eq_self (by unfold isInt32; omega)
  have e2 : cAdd (s * 5) p = s * 5 + p := wrap32_eq_self (by unfold isInt32; omega)
  have e3 : cMul TRIG_MAX_ANGLE (s * 5 + p) = 65536 * (s * 5 + p) :=
    wrap32_eq_self (by unfold isInt32 TRIG_MAX_ANGLE; omega)
  rw [e1, e2, e3]
  exact cDiv_of_nonneg (by omega) (by omega) (by omega)

/-- The minute-hand angle in closed form. -/
theorem minute_angle_closed {m s : Int} (hm : 0 ≤ m) (hm2 : m ≤ 59) (hs : 0 ≤ s)
    (hs2 : s ≤ 59) :
    minute_angle m s = 65536 * (m * 6 + s / 10) / 360 := by
  unfold minute_angle
  have e0 : cDiv s 10 = s / 10 := cDiv_of_nonneg hs (by omega) (by omega)
  have e1 : cMul m 6 = m * 6 := wrap32_eq_self (by unfold isInt32; omega)
  have e2 : cAdd (m * 6) (s / 10) = m * 6 + s / 10 :=
    wrap32_eq_self (by unfold isInt32; omega)
  have e3 : cMul TRIG_MAX_ANGLE (m * 6 + s / 10) = 65536 * (m * 6 + s / 10) :=
    wrap32_eq_self (by unfold isInt32 TRIG_MAX_ANGLE; omega)
  rw [e0, e1, e2, e3]
  exact cDiv_of_nonneg (by omega) (by omega) (by omega)

/-- The hour-hand angle in closed form. -/
theorem hour_angle_closed {h m : Int} (hh : 0 ≤ h) (hm : 0 ≤ m)
    (hm2 : m ≤ 59) :
    hour_angle h m = 65536 * (h % 12 * 30 + m / 2) / 360 := by
  unfold hour_angle
  have e0 : cDiv m 2 = m / 2 := cDiv_of_nonneg hm (by omega) (by omega)
  have e00 : cMod h 12 = h % 12 := cMod_of_nonneg hh (by omega) (by omega)
  have e1 : cMul (h % 12) 30 = h % 12 * 30 := wrap32_eq_self (by unfold isInt32; omega)
  have e2 : cAdd (h % 12 * 30) (m / 2) = h % 12 * 30 + m / 2 :=
    wrap32_eq_self (by unfold isInt32; omega)
  have e3 : cMul TRIG_MAX_ANGLE (h % 12 * 30 + m / 2) = 65536 * (h % 12 * 30 + m / 2) :=
    wrap32_eq_self (by unfold isInt32 TRIG_MAX_ANGLE; omega)
  rw [e0, e00, e1, e2, e3]
  exact cDiv_of_nonneg (by omega) (by omega) (by omega)

/-! ## The counter update -/

/-- C1, as stated, fails where the type `int` ends: from `partial_second = 2147483647`
(the largest `int`) a redraw in the same second does not leave the old value plus 1,
the increment leaves the range of `int` and the stored value is `-2147483648`. -/
theorem advanceTick_increment_at_int_max :
    isInt32 2147483647 ∧
    (5 : Int) = (Counter.mk 2147483647 5).previous_second ∧
    (advanceTick 5 (Counter.mk 2147483647 5)).partial_second = -2147483648 ∧
    (advanceTick 5 (Counter.mk 2147483647 5)).partial_second ≠ 2147483647 + 1 := by
  decide

/-- C1 (amended): for every counter state holding `int` values and every current
second: if the second equals `previous_second` and `partial_second` is below the
largest `int`, the new `partial_second` is the old one plus exactly 1 and
`previous_second` is unchanged; if the second differs, the new `partial_second` is 0
whatever it was and `previous_second` becomes the current second. From the initial
state the first update with any second in 0..59 gives `partial_second = 0`. -/
theorem advanceTick_contract (c : Counter) (sec : Int) (hp : isInt32 c.partial_second) :
    (sec = c.previous_second → c.partial_second < 2147483647 →
      (advanceTick sec c).partial_second = c.partial_second + 1 ∧
      (advanceTick sec c).previous_second = c.previous_second) ∧
    (sec ≠ c.previous_second →
      (advanceTick sec c).partial_second = 0 ∧
      (advanceTick sec c).previous_second = sec) ∧
    (0 ≤ sec → sec ≤ 59 →
      (advanceTick sec Counter.init).partial_second = 0 ∧
      (advanceTick sec Counter.init).previous_second = sec) := by
  refine ⟨?_, ?_, ?_⟩
  · intro he hlt
    unfold isInt32 at hp
    have hw : cAdd c.partial_second 1 = c.partial_second + 1 :=
      wrap32_eq_self (by unfold isInt32; omega)
    simp [advanceTick, he, hw]
  · intro hne
    simp [advanceTick, hne]
  · intro h0 _
    have hne : sec ≠ Counter.init.previous_second := by
      simp only [Counter.init]
      omega
    simp [advanceTick, hne]

/-- C1 (amended), at concrete inputs: a same-second update from `partial_second = 3`
gives 4; an update with another second gives 0; the first update gives 0. -/
theorem advanceTick_contract_witness :
    isInt32 3 ∧
    ((advanceTick 7 (Counter.mk 3 7)).partial_second = 3 + 1 ∧
      (advanceTick 7 (Counter.mk 3 7)).previous_second = 7) ∧
    ((advanceTick 8 (Counter.mk 3 7)).partial_second = 0 ∧
      (advanceTick 8 (Counter.mk 3 7)).previous_second = 8) ∧
    ((advanceTick 59 Counter.init).partial_second = 0 ∧
      (advanceTick 59 Counter.init).previous_second = 59) :=
  ⟨by decide,
   (advanceTick_contract (Counter.mk 3 7) 7 (by decide)).1 rfl (by decide),
   (advanceTick_contract (Counter.mk 3 7) 8 (by decide)).2.1 (by decide),
   (advanceTick_contract (Counter.mk 3 7) 59 (by decide)).2.2 (by decide) (by decide)⟩

/-! ## The second hand -/

/-- C2, as stated, fails for large `partial_second`: at second 0 and
`partial_second = 32768` the product `TRIG_MAX_ANGLE * 32768` is `2^31`, which is
not an `int`; the angle computed is `-7158278`, the formula gives `7158278`. -/
theorem second_angle_formula_fails_at_32768 :
    second_angle 0 32768 = -7158278 ∧
    TRIG_MAX_ANGLE * (0 * 5 + 32768) / (60 * 5) = 7158278 ∧
    second_angle 0 32768 ≠ TRIG_MAX_ANGLE * (0 * 5 + 32768) / (60 * 5) := by
  decide

/-- C2 (amended): for every second `s` in 0..59 and every `partial_second = p ≥ 0`
with `s * 5 + p ≤ 32767` (the product with `TRIG_MAX_ANGLE` is then an `int`), the
second angle is `floor (TRIG_MAX_ANGLE * (s * T + p) / (60 * T))` with
`T = 1000 / TIMER_MSEC = 5`; with `p = 0` it is the whole-second position
`floor (TRIG_MAX_ANGLE * s / 60)`. -/
theorem second_angle_formula (s p : Int) (hs : 0 ≤ s) (hs2 : s ≤ 59) (hp : 0 ≤ p)
    (hb : s * 5 + p ≤ 32767) :
    1000 / TIMER_MSEC = 5 ∧
    second_angle s p
      = TRIG_MAX_ANGLE * (s * (1000 / TIMER_MSEC) + p) / (60 * (1000 / TIMER_MSEC)) ∧
    second_angle s 0 = TRIG_MAX_ANGLE * s / 60 := by
  have hT : (1000 : Int) / TIMER_MSEC = 5 := by decide
  refine ⟨hT, ?_, ?_⟩
  · rw [hT, second_angle_closed hs hs2 hp hb]
    simp only [TRIG_MAX_ANGLE]
    norm_num
  · rw [second_angle_closed hs hs2 (le_refl 0) (by omega)]
    simp only [TRIG_MAX_ANGLE]
    omega

/-- C2 (amended), at second 30 and `partial_second = 2`. -/
theorem second_angle_formula_witness :
    1000 / TIMER_MSEC = 5 ∧
    second_angle 30 2
      = TRIG_MAX_ANGLE * (30 * (1000 / TIMER_MSEC) + 2) / (60 * (1000 / TIMER_MSEC)) ∧
    second_angle 30 0 = TRIG_MAX_ANGLE * 30 / 60 :=
  second_angle_formula 30 2 (by decide) (by decide) (by decide) (by decide)

/-- C3: for seconds in 0..59 and `partial_second` in 0..4, the second angle is
non-decreasing along the lexicographic order of (second, `partial_second`); it is 0
at (0, 0); at the last position of the minute, (59, 4), it is still below
`TRIG_MAX_ANGLE`, and the step from there back to (0, 0) is a decrease. -/
theorem second_angle_sweep (s p s2 p2 : Int)
    (hs : 0 ≤ s) (hs2 : s2 ≤ 59) (hp : 0 ≤ p) (hp1 : p ≤ 4) (hp2 : 0 ≤ p2) (hp3 : p2 ≤ 4)
    (hlex : s < s2 ∨ (s = s2 ∧ p ≤ p2)) :
    second_angle s p ≤ second_angle s2 p2 ∧
    second_angle 0 0 = 0 ∧
    second_angle 59 4 < TRIG_MAX_ANGLE ∧
    second_angle 0 0 < second_angle 59 4 := by
  have hss : s ≤ s2 := by omega
  refine ⟨?_, by decide, by decide, by decide⟩
  rw [second_angle_closed hs (by omega) hp (by omega),
    second_angle_closed (by omega) hs2 hp2 (by omega)]
  omega

/-- C3, from (12, 4) to (13, 0). -/
theorem second_angle_sweep_witness :
    second_angle 12 4 ≤ second_angle 13 0 ∧
    second_angle 0 0 = 0 ∧
    second_angle 59 4 < TRIG_MAX_ANGLE ∧
    second_angle 0 0 < second_angle 59 4 :=
  second_angle_sweep 12 4 13 0 (by decide) (by decide) (by decide) (by decide)
    (by decide) (by decide) (Or.inl (by decide))

/-! ## The battery text -/

theorem toChar_digit (d : Nat) (hd : d < 10) : toChar (d + ('0').toNat) = Nat.digitChar d := by
  interval_cases d <;> rfl

/-- C4: for every charge percentage in 0..100 and every charging flag,
`battery_update_proc` leaves in the six-byte buffer five visible characters and a
NUL: slot 0 is `+` when charging and a blank otherwise; slot 1 is `1` when the
percentage is at least 100 and a blank otherwise; slots 2 and 3 are the tens and
ones digits of the percentage modulo 100; slot 4 is `%`. So (100, not charging)
gives ` 100%` and (7, charging) gives `+ 07%`. -/
theorem battery_update_proc_layout (a : App) (charge_percent : Nat) (is_charging : Bool)
    (hlen : a.battery_buffer.length = 6) (hc : charge_percent ≤ 100) :
    (battery_update_proc (BatteryChargeState.mk charge_percent is_charging) a).battery_buffer
      = [if is_charging then '+' else ' ',
         if 100 ≤ charge_percent then '1' else ' ',
         Nat.digitChar (charge_percent % 100 / 10),
         Nat.digitChar (charge_percent % 100 % 10),
         '%',
         Char.ofNat 0] ∧
    (battery_update_proc (BatteryChargeState.mk 100 false) a).battery_buffer
      = [' ', '1', '0', '0', '%', Char.ofNat 0] ∧
    (battery_update_proc (BatteryChargeState.mk 7 true) a).battery_buffer
      = ['+', ' ', '0', '7', '%', Char.ofNat 0] := by
  obtain ⟨c, buf, t, r⟩ := a
  simp only at hlen
  match buf, hlen with
  | [b0, b1, b2, b3, b4, b5], _ =>
    refine ⟨?_, by rfl, by rfl⟩
    have h1 : (charge_percent / 100 ≠ 0) = (100 ≤ charge_percent) := by
      apply propext
      omega
    have h2 : charge_percent % 100 % 256 = charge_percent % 100 := by omega
    have h3 := toChar_digit (charge_percent % 100 / 10) (by omega)
    have h4 := toChar_digit (charge_percent % 100 % 10) (by omega)
    simp only [battery_update_proc, List.set, h1, h2, h3, h4]
    rfl

/-- C4, on the buffer as initialised and a reading of 42 percent, charging. -/
theorem battery_update_proc_layout_witness :
    (battery_update_proc (BatteryChargeState.mk 42 true) App.init).battery_buffer
      = [if true then '+' else ' ',
         if 100 ≤ 42 then '1' else ' ',
         Nat.digitChar (42 % 100 / 10),
         Nat.digitChar (42 % 100 % 10),
         '%',
         Char.ofNat 0] ∧
    (battery_update_proc (BatteryChargeState.mk 100 false) App.init).battery_buffer
      = [' ', '1', '0', '0', '%', Char.ofNat 0] ∧
    (battery_update_proc (BatteryChargeState.mk 7 true) App.init).battery_buffer
      = ['+', ' ', '0', '7', '%', Char.ofNat 0] :=
  battery_update_proc_layout App.init 42 true (by decide) (by decide)

/-! ## The hour hand -/

/-- C5: for every hour `h` in 0..23 and minute `m` in 0..59 the hour angle is
`floor (TRIG_MAX_ANGLE * ((h % 12) * 30 + m / 2) / 360)`; for `h` in 0..11 the angle
at hour `h + 12` is the angle at hour `h`, so hour 12 behaves as hour 0; the angle
at (0, 0) is 0 and at (6, 0) exactly half of `TRIG_MAX_ANGLE`. -/
theorem hour_angle_formula (h m : Int) (hh : 0 ≤ h) (hh2 : h ≤ 23) (hm : 0 ≤ m)
    (hm2 : m ≤ 59) :
    hour_angle h m = TRIG_MAX_ANGLE * ((h % 12) * 30 + m / 2) / 360 ∧
    (h ≤ 11 → hour_angle (h + 12) m = hour_angle h m) ∧
    hour_angle 12 m = hour_angle 0 m ∧
    hour_angle 0 0 = 0 ∧
    2 * hour_angle 6 0 = TRIG_MAX_ANGLE := by
  refine ⟨?_, ?_, ?_, by decide, by decide⟩
  · rw [hour_angle_closed hh hm hm2]
    rfl
  · intro _
    rw [hour_angle_closed hh hm hm2, hour_angle_closed (by omega) hm hm2]
    have e : (h + 12) % 12 = h % 12 := by omega
    rw [e]
  · rw [hour_angle_closed (by decide) hm hm2, hour_angle_closed (le_refl 0) hm hm2]
    rfl

/-- C5, at 9:41 and 21:41. -/
theorem hour_angle_formula_witness :
    hour_angle 9 41 = TRIG_MAX_ANGLE * ((9 % 12) * 30 + 41 / 2) / 360 ∧
    hour_angle (9 + 12) 41 = hour_angle 9 41 ∧
    hour_angle 12 41 = hour_angle 0 41 ∧
    hour_angle 0 0 = 0 ∧
    2 * hour_angle 6 0 = TRIG_MAX_ANGLE :=
  have w := hour_angle_formula 9 41 (by decide) (by decide) (by decide) (by decide)
  ⟨w.1, w.2.1 (by decide), w.2.2⟩

/-! ## The minute hand -/

/-- Within minute `m` the minute hand takes its six block positions and no other. -/
theorem minute_angle_image (m : Int) (hm : 0 ≤ m) (hm2 : m ≤ 59) :
    Finset.image (fun s : Nat => minute_angle m (s : Int)) (Finset.range 60)
      = Finset.image (fun b : Nat => 65536 * (m * 6 + (b : Int)) / 360) (Finset.range 6) := by
  ext x
  simp only [Finset.mem_image, Finset.mem_range]
  constructor
  · rintro ⟨s, hs, rfl⟩
    refine ⟨s / 10, by omega, ?_⟩
    rw [minute_angle_closed hm hm2 (by omega) (by omega)]
    have e : ((s / 10 : Nat) : Int) = (s : Int) / 10 := by omega
    rw [e]
  · rintro ⟨b, hb, rfl⟩
    refine ⟨b * 10, by omega, ?_⟩
    rw [minute_angle_closed hm hm2 (by omega) (by omega)]
    have e : ((b * 10 : Nat) : Int) / 10 = (b : Int) := by omega
    rw [e]

/-- C6: for every minute `m` and second `s` in 0..59 the minute angle is
`floor (TRIG_MAX_ANGLE * (m * 6 + s / 10) / 360)`; it is the same throughout a
10-second block and strictly larger in every later block of the hour, so within a
minute it takes exactly 6 distinct values; the angle at (0, 0) is 0, at (30, 0)
exactly half of `TRIG_MAX_ANGLE`, and at (59, 59) strictly below `TRIG_MAX_ANGLE`. -/
theorem minute_angle_formula (m s m2 s2 : Int) (hm : 0 ≤ m) (hm2 : m ≤ 59) (hs : 0 ≤ s)
    (hs2 : s ≤ 59) (hm3 : 0 ≤ m2) (hm4 : m2 ≤ 59) (hs3 : 0 ≤ s2) (hs4 : s2 ≤ 59) :
    minute_angle m s = TRIG_MAX_ANGLE * (m * 6 + s / 10) / 360 ∧
    (m = m2 → s / 10 = s2 / 10 → minute_angle m s = minute_angle m2 s2) ∧
    (m < m2 ∨ (m = m2 ∧ s / 10 < s2 / 10) → minute_angle m s < minute_angle m2 s2) ∧
    (Finset.image (fun k : Nat => minute_angle m (k : Int)) (Finset.range 60)).card = 6 ∧
    minute_angle 0 0 = 0 ∧
    2 * minute_angle 30 0 = TRIG_MAX_ANGLE ∧
    minute_angle 59 59 < TRIG_MAX_ANGLE := by
  refine ⟨?_, ?_, ?_, ?_, by decide, by decide, by decide⟩
  · rw [minute_angle_closed hm hm2 hs hs2]
    rfl
  · intro e1 e2
    rw [minute_angle_closed hm hm2 hs hs2, minute_angle_closed hm3 hm4 hs3 hs4, e1, e2]
  · intro hlt
    rw [minute_angle_closed hm hm2 hs hs2, minute_angle_closed hm3 hm4 hs3 hs4]
    omega
  · rw [minute_angle_image m hm hm2]
    rw [Finset.card_image_of_injOn]
    · simp
    · intro b1 h1 b2 h2 hb
      simp only [Finset.coe_range, Set.mem_Iio] at h1 h2
      simp only at hb
      omega

/-- C6, at 17:25 and 17:38 past the hour. -/
theorem minute_angle_formula_witness :
    minute_angle 17 25 = TRIG_MAX_ANGLE * (17 * 6 + 25 / 10) / 360 ∧
    minute_angle 17 20 = minute_angle 17 29 ∧
    minute_angle 17 25 < minute_angle 17 38 ∧
    (Finset.image (fun k : Nat => minute_angle 17 (k : Int)) (Finset.range 60)).card = 6 ∧
    minute_angle 0 0 = 0 ∧
    2 * minute_angle 30 0 = TRIG_MAX_ANGLE ∧
    minute_angle 59 59 < TRIG_MAX_ANGLE :=
  have w := minute_angle_formula 17 25 17 38 (by decide) (by decide) (by decide)
    (by decide) (by decide) (by decide) (by decide) (by decide)
  have v := minute_angle_formula 17 20 17 29 (by decide) (by decide) (by decide)
    (by decide) (by decide) (by decide) (by decide) (by decide)
  ⟨w.1, v.2.1 rfl (by decide), w.2.2.1 (Or.inr ⟨rfl, by decide⟩), w.2.2.2⟩

/-! ## The range of the angles -/

/-- C7, as stated, fails for the second hand: six redraws within second 59 lead
from the initial counter to `partial_second = 5`, and the second angle computed
there is `TRIG_MAX_ANGLE` itself, not a value below it. -/
theorem second_angle_reaches_full_turn :
    runTicks [59, 59, 59, 59, 59, 59] Counter.init = Counter.mk 5 59 ∧
    (hands_update_proc (Tm.mk 59 0 0)
        { App.init with counter := runTicks [59, 59, 59, 59, 59] Counter.init }).2.second_angle
      = TRIG_MAX_ANGLE ∧
    ¬ ((hands_update_proc (Tm.mk 59 0 0)
        { App.init with counter := runTicks [59, 59, 59, 59, 59] Counter.init }).2.second_angle
      < TRIG_MAX_ANGLE) := by
  decide

/-- C7 (amended): for every clock reading with hour in 0..23, minute in 0..59 and
second in 0..59 and every state, the minute and hour angles computed by
`hands_update_proc` are in `[0, TRIG_MAX_ANGLE)`, and so is the second angle
whenever the updated `partial_second` is in 0..4. More precisely, for an updated
`partial_second = p ≥ 0` with `tm_sec * 5 + p ≤ 32767` the second angle is
non-negative, and it is below `TRIG_MAX_ANGLE` exactly when `tm_sec * 5 + p < 300`. -/
theorem hands_update_proc_angles_in_range (t : Tm) (a : App)
    (hh : 0 ≤ t.tm_hour) (_ : t.tm_hour ≤ 23) (hm : 0 ≤ t.tm_min) (hm2 : t.tm_min ≤ 59)
    (hs : 0 ≤ t.tm_sec) (hs2 : t.tm_sec ≤ 59) :
    (0 ≤ (hands_update_proc t a).1.counter.partial_second →
      (hands_update_proc t a).1.counter.partial_second ≤ 4 →
      0 ≤ (hands_update_proc t a).2.second_angle ∧
      (hands_update_proc t a).2.second_angle < TRIG_MAX_ANGLE) ∧
    (0 ≤ (hands_update_proc t a).1.counter.partial_second →
      t.tm_sec * 5 + (hands_update_proc t a).1.counter.partial_second ≤ 32767 →
      0 ≤ (hands_update_proc t a).2.second_angle ∧
      ((hands_update_proc t a).2.second_angle < TRIG_MAX_ANGLE ↔
        t.tm_sec * 5 + (hands_update_proc t a).1.counter.partial_second < 300)) ∧
    (0 ≤ (hands_update_proc t a).2.minute_angle ∧
      (hands_update_proc t a).2.minute_angle < TRIG_MAX_ANGLE) ∧
    (0 ≤ (hands_update_proc t a).2.hour_angle ∧
      (hands_update_proc t a).2.hour_angle < TRIG_MAX_ANGLE) := by
  simp only [hands_update_proc, computeAngles]
  refine ⟨?_, ?_, ?_, ?_⟩
  · intro h0 h4
    rw [second_angle_closed hs hs2 h0 (by omega)]
    simp only [TRIG_MAX_ANGLE]
    omega
  · intro h0 hb
    rw [second_angle_closed hs hs2 h0 hb]
    simp only [TRIG_MAX_ANGLE]
    omega
  · rw [minute_angle_closed hm hm2 hs hs2]
    simp only [TRIG_MAX_ANGLE]
    omega
  · rw [hour_angle_closed hh hm hm2]
    simp only [TRIG_MAX_ANGLE]
    omega

/-- C7 (amended), at 23:59:59 on the first redraw. -/
theorem hands_update_proc_angles_in_range_witness :
    (0 ≤ (hands_update_proc (Tm.mk 59 59 23) App.init).2.second_angle ∧
      (hands_update_proc (Tm.mk 59 59 23) App.init).2.second_angle < TRIG_MAX_ANGLE) ∧
    (0 ≤ (hands_update_proc (Tm.mk 59 59 23) App.init).2.second_angle ∧
      ((hands_update_proc (Tm.mk 59 59 23) App.init).2.second_angle < TRIG_MAX_ANGLE ↔
        (Tm.mk 59 59 23).tm_sec * 5
          + (hands_update_proc (Tm.mk 59 59 23) App.init).1.counter.partial_second < 300)) ∧
    (0 ≤ (hands_update_proc (Tm.mk 59 59 23) App.init).2.minute_angle ∧
      (hands_update_proc (Tm.mk 59 59 23) App.init).2.minute_angle < TRIG_MAX_ANGLE) ∧
    (0 ≤ (hands_update_proc (Tm.mk 59 59 23) App.init).2.hour_angle ∧
      (hands_update_proc (Tm.mk 59 59 23) App.init).2.hour_angle < TRIG_MAX_ANGLE) :=
  have w := hands_update_proc_angles_in_range (Tm.mk 59 59 23) App.init (by decide)
    (by decide) (by decide) (by decide) (by decide) (by decide)
  ⟨w.1 (by decide) (by decide), w.2.1 (by decide) (by decide), w.2.2⟩

/-! ## The counter along a run of redraws -/

theorem advanceTick_partial_second (s : Int) (c : Counter) (hc : isInt32 c.partial_second) :
    isInt32 (advanceTick s c).partial_second ∧
    max (advanceTick s c).partial_second 0 ≤ max c.partial_second 0 + 1 := by
  unfold advanceTick
  split
  · simp only [isInt32]
    omega
  · simp only [cAdd, wrap32, isInt32] at *
    omega

theorem runTicks_partial_second (secs : List Int) :
    ∀ c : Counter, isInt32 c.partial_second →
      isInt32 (runTicks secs c).partial_second ∧
      (runTicks secs c).partial_second ≤ max c.partial_second 0 + (secs.length : Int) := by
  induction secs with
  | nil =>
    intro c hc
    simp only [runTicks, List.foldl_nil, List.length_nil]
    exact ⟨hc, by omega⟩
  | cons s rest ih =>
    intro c hc
    have h1 := advanceTick_partial_second s c hc
    have h2 := ih (advanceTick s c) h1.1
    simp only [runTicks, List.foldl_cons, List.length_cons] at h2 ⊢
    refine ⟨h2.1, ?_⟩
    push_cast
    omega

theorem runTicks_same_second (s : Int) (c : Counter) (hne : s ≠ c.previous_second) :
    ∀ k : Nat, k ≤ 2147483647 →
      runTicks (List.replicate (k + 1) s) c = Counter.mk (k : Int) s := by
  intro k
  induction k with
  | zero =>
    intro _
    simp [runTicks, advanceTick, hne]
  | succ k ih =>
    intro hk
    have h := ih (by omega)
    rw [List.replicate_succ']
    simp only [runTicks, List.foldl_append, List.foldl_cons, List.foldl_nil] at h ⊢
    rw [h]
    have hw : cAdd (k : Int) 1 = ((k + 1 : Nat) : Int) := by
      unfold cAdd
      rw [wrap32_eq_self (by unfold isInt32; omega)]
      push_cast
      rfl
    simp [advanceTick, hw]

/-- C8, as stated, fails: seven redraws within second 0 lead from the initial
counter to `partial_second = 6`, which exceeds 5. -/
theorem partial_second_exceeds_ticks_per_second :
    runTicks [0, 0, 0, 0, 0, 0, 0] Counter.init = Counter.mk 6 0 ∧
    ¬ ((runTicks [0, 0, 0, 0, 0, 0, 0] Counter.init).partial_second ≤ 1000 / TIMER_MSEC) := by
  decide

/-- C8 (amended): in the state reached from the initial counter by any sequence of
counter updates with seconds in 0..59, `partial_second` is an `int` value and is
below the number of updates made (0 before the first); it is not bounded by 5:
after `k + 1` updates in a row with the same second, first seen at the first of
them, it is `k`, for every `k` up to `2147483647`. -/
theorem runTicks_partial_second_bound (secs : List Int)
    (hsecs : ∀ s ∈ secs, 0 ≤ s ∧ s ≤ 59) :
    isInt32 (runTicks secs Counter.init).partial_second ∧
    (runTicks secs Counter.init).partial_second ≤ ((secs.length - 1 : Nat) : Int) ∧
    (∀ (k : Nat) (s : Int) (c : Counter), k ≤ 2147483647 → s ≠ c.previous_second →
      (runTicks (List.replicate (k + 1) s) c).partial_second = (k : Int)) := by
  have hinit : isInt32 Counter.init.partial_second := by decide
  refine ⟨(runTicks_partial_second secs Counter.init hinit).1, ?_, ?_⟩
  · cases secs with
    | nil => decide
    | cons s rest =>
      have hs := hsecs s (List.mem_cons_self s rest)
      have hne : s ≠ Counter.init.previous_second := by
        simp only [Counter.init]
        omega
      have e : advanceTick s Counter.init = Counter.mk 0 s := by
        simp [advanceTick, hne]
      have h2 := runTicks_partial_second rest (Counter.mk 0 s) (show isInt32 (0 : Int) by decide)
      simp only [runTicks, List.foldl_cons, List.length_cons, e] at h2 ⊢
      have h3 := h2.2
      simp only [Nat.add_sub_cancel]
      omega
  · intro k s c hk hne
    rw [runTicks_same_second s c hne k hk]

/-- C8 (amended), on the run 58, 59, 59, 59 and on 1000 updates within second 0. -/
theorem runTicks_partial_second_bound_witness :
    isInt32 (runTicks [58, 59, 59, 59] Counter.init).partial_second ∧
    (runTicks [58, 59, 59, 59] Counter.init).partial_second ≤ 3 ∧
    (runTicks (List.replicate (999 + 1) 0) Counter.init).partial_second = 999 :=
  have w := runTicks_partial_second_bound [58, 59, 59, 59] (by decide)
  ⟨w.1, w.2.1, w.2.2 999 0 Counter.init (by decide) (by decide)⟩

/-! ## 32-bit evaluation against evaluation over the integers -/

theorem second_angle_exact_closed {s p : Int} (hs : 0 ≤ s) (hp : 0 ≤ p) :
    second_angle_exact s p = 65536 * (s * 5 + p) / 300 := by
  unfold second_angle_exact
  have h5 : Int.tdiv 1000 TIMER_MSEC = 5 := by decide
  rw [h5]
  simp only [TRIG_MAX_ANGLE]
  exact Int.tdiv_eq_ediv (by omega) (by omega)

theorem minute_angle_exact_closed {m s : Int} (hm : 0 ≤ m) (hs : 0 ≤ s) :
    minute_angle_exact m s = 65536 * (m * 6 + s / 10) / 360 := by
  unfold minute_angle_exact
  rw [Int.tdiv_eq_ediv hs (by omega)]
  simp only [TRIG_MAX_ANGLE]
  exact Int.tdiv_eq_ediv (by omega) (by omega)

theorem hour_angle_exact_closed {h m : Int} (hh : 0 ≤ h) (hm : 0 ≤ m) :
    hour_angle_exact h m = 65536 * (h % 12 * 30 + m / 2) / 360 := by
  unfold hour_angle_exact
  rw [Int.tdiv_eq_ediv hm (by omega), Int.tmod_eq_emod hh (by omega)]
  simp only [TRIG_MAX_ANGLE]
  exact Int.tdiv_eq_ediv (by omega) (by omega)

/-- C9: with `TRIG_MAX_ANGLE = 65536` and 32-bit `int`, for every hour in 0..23,
minute in 0..59, second in 0..59 and `partial_second` in 0..4, the product
`TRIG_MAX_ANGLE * x` of each of the three angle expressions is non-negative and
below `2^31`, the divisors `60 * (1000 / TIMER_MSEC) = 300` and `360` are not zero,
and each angle as computed on 32-bit `int` equals its value over the integers. -/
theorem angles_no_overflow (h m s p : Int) (hh : 0 ≤ h) (_ : h ≤ 23) (hm : 0 ≤ m)
    (hm2 : m ≤ 59) (hs : 0 ≤ s) (hs2 : s ≤ 59) (hp : 0 ≤ p) (hp2 : p ≤ 4) :
    TRIG_MAX_ANGLE = 65536 ∧
    (0 ≤ TRIG_MAX_ANGLE * (s * (1000 / TIMER_MSEC) + p) ∧
      TRIG_MAX_ANGLE * (s * (1000 / TIMER_MSEC) + p) < 2 ^ 31) ∧
    (0 ≤ TRIG_MAX_ANGLE * (m * 6 + s / 10) ∧
      TRIG_MAX_ANGLE * (m * 6 + s / 10) < 2 ^ 31) ∧
    (0 ≤ TRIG_MAX_ANGLE * (h % 12 * 30 + m / 2) ∧
      TRIG_MAX_ANGLE * (h % 12 * 30 + m / 2) < 2 ^ 31) ∧
    (60 * (1000 / TIMER_MSEC) = 300 ∧ cMul 60 (cDiv 1000 TIMER_MSEC) ≠ 0 ∧ (360 : Int) ≠ 0) ∧
    second_angle s p = second_angle_exact s p ∧
    minute_angle m s = minute_angle_exact m s ∧
    hour_angle h m = hour_angle_exact h m := by
  have hT : (1000 : Int) / TIMER_MSEC = 5 := by decide
  refine ⟨rfl, ?_, ?_, ?_, ⟨by decide, by decide, by decide⟩, ?_, ?_, ?_⟩
  · rw [hT]
    simp only [TRIG_MAX_ANGLE]
    omega
  · simp only [TRIG_MAX_ANGLE]
    omega
  · simp only [TRIG_MAX_ANGLE]
    omega
  · rw [second_angle_closed hs hs2 hp (by omega), second_angle_exact_closed hs hp]
  · rw [minute_angle_closed hm hm2 hs hs2, minute_angle_exact_closed hm hs]
  · rw [hour_angle_closed hh hm hm2, hour_angle_exact_closed hh hm]

/-- C9, at 23:59:59 with `partial_second = 4`, the largest operands. -/
theorem angles_no_overflow_witness :
    TRIG_MAX_ANGLE = 65536 ∧
    (0 ≤ TRIG_MAX_ANGLE * (59 * (1000 / TIMER_MSEC) + 4) ∧
      TRIG_MAX_ANGLE * (59 * (1000 / TIMER_MSEC) + 4) < 2 ^ 31) ∧
    (0 ≤ TRIG_MAX_ANGLE * (59 * 6 + 59 / 10) ∧
      TRIG_MAX_ANGLE * (59 * 6 + 59 / 10) < 2 ^ 31) ∧
    (0 ≤ TRIG_MAX_ANGLE * (23 % 12 * 30 + 59 / 2) ∧
      TRIG_MAX_ANGLE * (23 % 12 * 30 + 59 / 2) < 2 ^ 31) ∧
    (60 * (1000 / TIMER_MSEC) = 300 ∧ cMul 60 (cDiv 1000 TIMER_MSEC) ≠ 0 ∧ (360 : Int) ≠ 0) ∧
    second_angle 59 4 = second_angle_exact 59 4 ∧
    minute_angle 59 59 = minute_angle_exact 59 59 ∧
    hour_angle 23 59 = hour_angle_exact 23 59 :=
  angles_no_overflow 23 59 59 4 (by decide) (by decide) (by decide) (by decide)
    (by decide) (by decide) (by decide) (by decide)

/-! ## Which callback moves the counter -/

/-- C10, as stated, fails: `handle_tick` leaves the counter as it is, where the
counter update for the current second (here 0, on the initial state) changes it;
and the redraw of the hands, which computes the angles, does change the counter. -/
theorem handle_tick_keeps_counter :
    (handle_tick App.init).counter = App.init.counter ∧
    (handle_tick App.init).counter ≠ advanceTick 0 App.init.counter ∧
    (hands_update_proc (Tm.mk 0 0 0) App.init).1.counter ≠ App.init.counter := by
  decide

/-- C10 (amended): on every timer firing `handle_tick` registers the next timer
with delay `TIMER_MSEC` and marks the root layer dirty, and changes nothing else,
the counter included; the counter update (reset on a changed second, otherwise
increment) is made by the redraw `hands_update_proc`, before it computes the angles
from the updated `partial_second`; `hands_update_proc` changes nothing but the
counter, and does change it on every call; `battery_update_proc` leaves the counter
unchanged too. So `hands_update_proc` is the only operation that changes the
counter. -/
theorem counter_changed_by_hands_update_proc_only (a : App) (t : Tm)
    (st : BatteryChargeState) :
    (handle_tick a).counter = a.counter ∧
    handle_tick a = { a with timer_handle := some TIMER_MSEC, root_dirty := true } ∧
    (hands_update_proc t a).1 = { a with counter := advanceTick t.tm_sec a.counter } ∧
    (hands_update_proc t a).2
      = computeAngles t (advanceTick t.tm_sec a.counter).partial_second ∧
    (hands_update_proc t a).1.counter ≠ a.counter ∧
    (battery_update_proc st a).counter = a.counter := by
  refine ⟨rfl, rfl, rfl, rfl, ?_, rfl⟩
  intro hEq
  have h : advanceTick t.tm_sec a.counter = a.counter := hEq
  unfold advanceTick at h
  split at h
  · rename_i hne
    have h2 := congrArg Counter.previous_second h
    exact hne h2
  · have h2 : cAdd a.counter.partial_second 1 = a.counter.partial_second :=
      congrArg Counter.partial_second h
    simp only [cAdd, wrap32] at h2
    omega

/-- C10 (amended), on the initial state at 10:09:36 with a full battery. -/
theorem counter_changed_by_hands_update_proc_only_witness :
    (handle_tick App.init).counter = Counter.init ∧
    (hands_update_proc (Tm.mk 36 9 10) App.init).1.counter = Counter.mk 0 36 ∧
    (hands_update_proc (Tm.mk 36 9 10) App.init).1.counter ≠ App.init.counter ∧
    (battery_update_proc (BatteryChargeState.mk 100 false) App.init).counter = Counter.init :=
  have w := counter_changed_by_hands_update_proc_only App.init (Tm.mk 36 9 10)
    (BatteryChargeState.mk 100 false)
  ⟨w.1, by decide, w.2.2.2.2.1, w.2.2.2.2.2⟩

end Chrono2
